import Mathlib

/-!
Verification development for the SLA print-preparation engine of this
repository (support-point generation, support-tree synthesis, pad synthesis,
horizontal slicing, mesh validity/repair), as exercised by
`tests/sla_print/sla_print_tests_main.cpp`.

The engine itself (`libslic3r/SLA/...`, `libslic3r/TriangleMesh.cpp`) is not
part of the available sources; only its test-suite caller is.  Definitions
below that embed the missing engine are therefore modelled from the spec
(each such definition carries a doc comment starting `Modelled from the
spec:`), while `checkValidity` and the shape of the test pipeline follow the
test file, which is available.

Coordinates are integers in scaled units (1 mm = 10^6 units), following the
scaled integer coordinate convention of the code base; all millimetre
quantities of the spec appear below multiplied by `mmScale`.
-/

set_option autoImplicit false

namespace SlaSpec

/-- Scaled units per millimetre. -/
def mmScale : ℤ := 1000000

/-! ## List min/max helpers -/

/-- Fold of `min` over a list with seed `x`. -/
def minOf (x : ℤ) (l : List ℤ) : ℤ := l.foldl min x

/-- Fold of `max` over a list with seed `x`. -/
def maxOf (x : ℤ) (l : List ℤ) : ℤ := l.foldl max x

/-- Minimum of a list of integers, `0` for the empty list. -/
def listMinD : List ℤ → ℤ
  | [] => 0
  | x :: l => minOf x l

/-- Maximum of a list of integers, `0` for the empty list. -/
def listMaxD : List ℤ → ℤ
  | [] => 0
  | x :: l => maxOf x l

/-! ## 2D/3D points, rectangles, boxes -/

/-- A 2D point in scaled integer coordinates. -/
structure Point2 where
  x : ℤ
  y : ℤ
deriving DecidableEq

/-- A 3D point in scaled integer coordinates. -/
structure Point3 where
  x : ℤ
  y : ℤ
  z : ℤ
deriving DecidableEq

instance : Inhabited Point3 := ⟨⟨0, 0, 0⟩⟩

/-- Axis-aligned half-open 2D rectangle `[lo.x, hi.x) × [lo.y, hi.y)`. -/
structure Rect2 where
  lo : Point2
  hi : Point2
deriving DecidableEq

/-- Axis-aligned half-open 3D box. -/
structure Box3 where
  lo : Point3
  hi : Point3
deriving DecidableEq

/-- Membership of a 2D point in a half-open rectangle. -/
def memRect (q : Point2) (r : Rect2) : Prop :=
  r.lo.x ≤ q.x ∧ q.x < r.hi.x ∧ r.lo.y ≤ q.y ∧ q.y < r.hi.y

instance (q : Point2) (r : Rect2) : Decidable (memRect q r) := by
  unfold memRect; infer_instance

/-- Membership of a 3D point in a half-open box. -/
def memBox (p : Point3) (b : Box3) : Prop :=
  b.lo.x ≤ p.x ∧ p.x < b.hi.x ∧ b.lo.y ≤ p.y ∧ p.y < b.hi.y ∧
    b.lo.z ≤ p.z ∧ p.z < b.hi.z

instance (p : Point3) (b : Box3) : Decidable (memBox p b) := by
  unfold memBox; infer_instance

/-- A rectangle is valid (nonempty) when each interval is nonempty. -/
def validRect (r : Rect2) : Prop := r.lo.x < r.hi.x ∧ r.lo.y < r.hi.y

instance (r : Rect2) : Decidable (validRect r) := by
  unfold validRect; infer_instance

/-- A box is valid (nonempty) when each interval is nonempty. -/
def validBox (b : Box3) : Prop :=
  b.lo.x < b.hi.x ∧ b.lo.y < b.hi.y ∧ b.lo.z < b.hi.z

instance (b : Box3) : Decidable (validBox b) := by
  unfold validBox; infer_instance

/-- A 2D region: finite union of half-open rectangles (the shallow embedding
of one cross-section polygon set, `ExPolygons`). -/
abbrev Region2 := List Rect2

/-- A 3D region: finite union of half-open boxes (the shallow embedding of a
solid occupied by geometry). -/
abbrev Region3 := List Box3

/-- Membership of a 2D point in a region. -/
def memR2 (q : Point2) (A : Region2) : Prop := ∃ r ∈ A, memRect q r

/-- Membership of a 3D point in a region. -/
def memR3 (p : Point3) (A : Region3) : Prop := ∃ b ∈ A, memBox p b

/-! ## Rectangle intersection (the 2D boolean `intersection` of cross-sections) -/

/-- Modelled from the spec: 2D intersection of two cross-section shapes
(`Slic3r::intersection` on `ExPolygons`), restricted to the rectangle
embedding.  Returns `none` when the overlap is empty. -/
def rectInter (a b : Rect2) : Option Rect2 :=
  let c : Rect2 :=
    ⟨⟨max a.lo.x b.lo.x, max a.lo.y b.lo.y⟩,
     ⟨min a.hi.x b.hi.x, min a.hi.y b.hi.y⟩⟩
  if validRect c then some c else none

/-- Modelled from the spec: intersection of two polygon sets; the result
lists the (non-degenerate) pairwise overlaps. -/
def inter2 (A B : Region2) : List Rect2 :=
  A.flatMap (fun a => B.filterMap (fun b => rectInter a b))

/-! ## Mesh slicer -/

/-- Cross-section of one half-open box by the horizontal plane at `z`. -/
def sliceBox (b : Box3) (z : ℤ) : Option Rect2 :=
  if b.lo.z ≤ z ∧ z < b.hi.z then
    some ⟨⟨b.lo.x, b.lo.y⟩, ⟨b.hi.x, b.hi.y⟩⟩
  else none

/-- Modelled from the spec: one layer of the mesh slicer
(`TriangleMeshSlicer::slice`).  Cuts the solid by the horizontal plane at
`z`; the closing radius `cr` suppresses degenerate slivers thinner than the
tolerance. -/
def sliceAt (R : Region3) (z cr : ℤ) : Region2 :=
  R.filterMap (fun b =>
    match sliceBox b z with
    | some r => if cr ≤ r.hi.x - r.lo.x ∧ cr ≤ r.hi.y - r.lo.y then some r else none
    | none => none)

/-- Modelled from the spec: full slicer run — one polygon set per requested
Z value, in input order (`TriangleMeshSlicer::slice(grid, closing_radius, …)`). -/
def slicerSlice (R : Region3) (grid : List ℤ) (cr : ℤ) : List Region2 :=
  grid.map (fun z => sliceAt R z cr)

/-- Modelled from the spec: the ascending Z grid helper (`Slic3r::grid`),
`start, start+step, …` up to `stop`. -/
def gridF (start stop step : ℤ) : List ℤ :=
  (List.range ((stop - start).toNat / step.toNat + 1)).map
    (fun k : ℕ => start + (k : ℤ) * step)

/-! ## Dilation (offsetting a solid outward) -/

/-- Modelled from the spec: outward offset of a solid by `d` (used to keep
support heads strictly clear of the model surface when
`head_penetration_mm < 0`). -/
def dilate (R : Region3) (d : ℤ) : Region3 :=
  R.map (fun b =>
    ⟨⟨b.lo.x - d, b.lo.y - d, b.lo.z - d⟩, ⟨b.hi.x + d, b.hi.y + d, b.hi.z + d⟩⟩)

/-! ## Boolean difference of solids (support clipped against the model) -/

/-- The six axis-aligned pieces of `a` left after carving `b` out of it. -/
def boxDiffPieces (a b : Box3) : List Box3 :=
  [⟨a.lo, ⟨a.hi.x, a.hi.y, min a.hi.z b.lo.z⟩⟩,
   ⟨⟨a.lo.x, a.lo.y, max a.lo.z b.hi.z⟩, a.hi⟩,
   ⟨⟨a.lo.x, a.lo.y, max a.lo.z b.lo.z⟩,
    ⟨a.hi.x, min a.hi.y b.lo.y, min a.hi.z b.hi.z⟩⟩,
   ⟨⟨a.lo.x, max a.lo.y b.hi.y, max a.lo.z b.lo.z⟩,
    ⟨a.hi.x, a.hi.y, min a.hi.z b.hi.z⟩⟩,
   ⟨⟨a.lo.x, max a.lo.y b.lo.y, max a.lo.z b.lo.z⟩,
    ⟨min a.hi.x b.lo.x, min a.hi.y b.hi.y, min a.hi.z b.hi.z⟩⟩,
   ⟨⟨max a.lo.x b.hi.x, max a.lo.y b.lo.y, max a.lo.z b.lo.z⟩,
    ⟨a.hi.x, min a.hi.y b.hi.y, min a.hi.z b.hi.z⟩⟩]

/-- Modelled from the spec: boolean difference `a − b` of two boxes, as a
finite union of valid boxes. -/
def boxDiff (a b : Box3) : List Box3 :=
  (boxDiffPieces a b).filter (fun c => decide (validBox c))

/-- Modelled from the spec: boolean difference of two solids. -/
def regionDiff (A B : Region3) : Region3 :=
  B.foldl (fun acc b => acc.flatMap (fun a => boxDiff a b)) A

/-- `d` is contained (interval-wise) in `a`. -/
def subBox (d a : Box3) : Prop :=
  a.lo.x ≤ d.lo.x ∧ a.lo.y ≤ d.lo.y ∧ a.lo.z ≤ d.lo.z ∧
    d.hi.x ≤ a.hi.x ∧ d.hi.y ≤ a.hi.y ∧ d.hi.z ≤ a.hi.z

/-! ## Triangle meshes, repair and validity -/

/-- An index triple denoting one triangular facet. -/
abbrev Face := ℕ × ℕ × ℕ

/-- `TriangleMesh`: ordered vertices plus ordered index triples, as in the
data model of the spec. -/
structure TriangleMesh where
  vertices : List Point3
  faces : List Face
deriving DecidableEq

/-- `TriangleMesh::empty()`: no facets. -/
def TriangleMesh.empty (m : TriangleMesh) : Bool := m.faces.isEmpty

/-- A facet is structurally valid when its indices reference existing,
pairwise distinct vertices. -/
def validFace (n : ℕ) (f : Face) : Prop :=
  f.1 < n ∧ f.2.1 < n ∧ f.2.2 < n ∧ f.1 ≠ f.2.1 ∧ f.2.1 ≠ f.2.2 ∧ f.1 ≠ f.2.2

instance (n : ℕ) (f : Face) : Decidable (validFace n f) := by
  unfold validFace; infer_instance

/-- Orientation-preserving rotation of a facet so that its smallest index
comes first (the canonical form produced by orientation normalization). -/
def normFace (f : Face) : Face :=
  if f.1 ≤ f.2.1 ∧ f.1 ≤ f.2.2 then f
  else if f.2.1 ≤ f.1 ∧ f.2.1 ≤ f.2.2 then (f.2.1, f.2.2, f.1)
  else (f.2.2, f.1, f.2.1)

/-- Modelled from the spec: the facets left, in canonical form, after
`TriangleMesh::repair` drops degenerate/out-of-range facets and normalizes
orientation. -/
def repairFaces (m : TriangleMesh) : List Face :=
  (m.faces.filter (fun f => decide (validFace m.vertices.length f))).map normFace

/-- Modelled from the spec: `TriangleMesh::repair` (in-place mutation
modelled as a pure transformation returning the repaired mesh). -/
def TriangleMesh.repair (m : TriangleMesh) : TriangleMesh :=
  ⟨m.vertices, repairFaces m⟩

/-- Modelled from the spec: `TriangleMesh::needed_repair()` — whether a
repair pass would change (or did change) the facet list. -/
def neededRepair (m : TriangleMesh) : Bool := decide (repairFaces m ≠ m.faces)

/-- Modelled from the spec: `stl_validate` — structural STL-level validity
of the facet array. -/
def stlValidate (m : TriangleMesh) : Bool :=
  m.faces.all (fun f => decide (validFace m.vertices.length f))

/-- Directed edges of one facet. -/
def faceEdges (f : Face) : List (ℕ × ℕ) := [(f.1, f.2.1), (f.2.1, f.2.2), (f.2.2, f.1)]

/-- All directed edges of the mesh. -/
def meshEdges (m : TriangleMesh) : List (ℕ × ℕ) := m.faces.flatMap faceEdges

/-- Modelled from the spec: `TriangleMesh::is_manifold()` — every directed
edge occurs exactly once and so does its reverse (each undirected edge is
shared by exactly two consistently oriented facets). -/
def isManifold (m : TriangleMesh) : Bool :=
  (meshEdges m).all (fun e =>
    ((meshEdges m).count e == 1) && ((meshEdges m).count (e.2, e.1) == 1))

/-- Modelled from the spec: `TriangleMesh::require_shared_vertices()` —
build the shared-vertex structure by welding geometrically identical
vertices into one. -/
def requireSharedVertices (m : TriangleMesh) : TriangleMesh :=
  let nv := m.vertices.dedup
  let idx : ℕ → ℕ := fun i => nv.findIdx (fun w => w == m.vertices.getD i default)
  ⟨nv, m.faces.map (fun f => (idx f.1, idx f.2.1, idx f.2.2))⟩

/-- Validity flags of `check_validity` in the test file
(`ASSUME_NO_EMPTY`, `ASSUME_MANIFOLD`, `ASSUME_NO_REPAIR`). -/
structure ValidityFlags where
  assume_no_empty : Bool
  assume_manifold : Bool
  assume_no_repair : Bool
deriving DecidableEq

/-- All three assumptions on, the default of `check_validity`. -/
def allFlags : ValidityFlags := ⟨true, true, true⟩

/-- `check_validity` from the test file: empty-mesh gate, `stl_validate`,
repair, `needed_repair` under `ASSUME_NO_REPAIR`, shared vertices and
`is_manifold` under `ASSUME_MANIFOLD`.  Returns whether every requested
assertion holds. -/
def checkValidity (m : TriangleMesh) (fl : ValidityFlags) : Bool :=
  if m.empty then
    !fl.assume_no_empty
  else
    stlValidate m &&
    (!fl.assume_no_repair || !neededRepair m) &&
    (!fl.assume_manifold || isManifold (requireSharedVertices m.repair))

/-! ## Mesh assembly helpers -/

/-- Concatenate two meshes, shifting the facet indices of the second. -/
def appendMesh (A B : TriangleMesh) : TriangleMesh :=
  ⟨A.vertices ++ B.vertices,
   A.faces ++ B.faces.map (fun f =>
     (f.1 + A.vertices.length, f.2.1 + A.vertices.length, f.2.2 + A.vertices.length))⟩

/-- Merge a list of meshes into one. -/
def mergeMeshes (l : List TriangleMesh) : TriangleMesh := l.foldl appendMesh ⟨[], []⟩

/-- The eight corner vertices of a box. -/
def boxCorners (b : Box3) : List Point3 :=
  [⟨b.lo.x, b.lo.y, b.lo.z⟩, ⟨b.hi.x, b.lo.y, b.lo.z⟩,
   ⟨b.hi.x, b.hi.y, b.lo.z⟩, ⟨b.lo.x, b.hi.y, b.lo.z⟩,
   ⟨b.lo.x, b.lo.y, b.hi.z⟩, ⟨b.hi.x, b.lo.y, b.hi.z⟩,
   ⟨b.hi.x, b.hi.y, b.hi.z⟩, ⟨b.lo.x, b.hi.y, b.hi.z⟩]

/-- The twelve facets of a box, outward-oriented, in canonical form. -/
def boxFaces : List Face :=
  ([(0, 2, 1), (0, 3, 2), (4, 5, 6), (4, 6, 7), (0, 1, 5), (0, 5, 4),
    (1, 2, 6), (1, 6, 5), (2, 3, 7), (2, 7, 6), (3, 0, 4), (3, 4, 7)]
    : List Face).map normFace

/-- Triangle mesh of one box primitive. -/
def boxMesh (b : Box3) : TriangleMesh := ⟨boxCorners b, boxFaces⟩

/-- Lowest vertex Z of a mesh (`bounding_box().min.z()`; `0` for an empty
vertex list). -/
def meshMinZ (m : TriangleMesh) : ℤ := listMinD (m.vertices.map Point3.z)

/-- Highest vertex Z of a mesh (`bounding_box().max.z()`; `0` for an empty
vertex list). -/
def meshMaxZ (m : TriangleMesh) : ℤ := listMaxD (m.vertices.map Point3.z)

/-! ## Pad synthesizer -/

/-- A 2D contour with holes (`ExPolygon`). -/
structure ExPolygon where
  contour : List Point2
  holes : List (List Point2)
deriving DecidableEq

/-- `sla::PadConfig`: pad configuration (scaled millimetre quantities). -/
structure PadConfig where
  min_wall_thickness_mm : ℤ
  wall_height_mm : ℤ
  max_merge_distance_mm : ℤ
  edge_radius_mm : ℤ
deriving DecidableEq

/-- `PadConfig::full_height()`: total pad extrusion height, wall height plus
base thickness. -/
def PadConfig.full_height (c : PadConfig) : ℤ :=
  c.wall_height_mm + c.min_wall_thickness_mm

/-- Default pad configuration (flat pad: zero wall height). -/
def defaultPadConfig : PadConfig := ⟨2 * mmScale, 0, 50 * mmScale, mmScale⟩

/-- Modelled from the spec: `sla::pad_blueprint(mesh, out_contours)` —
the ground-projected footprint contour of the model; empty output only for
an empty mesh.  The footprint outline is modelled by the projected bounding
rectangle (exact for the rectangular-footprint meshes of the test suite). -/
def pad_blueprint (m : TriangleMesh) : List ExPolygon :=
  if m.faces.isEmpty || m.vertices.isEmpty then []
  else
    let xs := m.vertices.map Point3.x
    let ys := m.vertices.map Point3.y
    [⟨[⟨listMinD xs, listMinD ys⟩, ⟨listMaxD xs, listMinD ys⟩,
       ⟨listMaxD xs, listMaxD ys⟩, ⟨listMinD xs, listMaxD ys⟩], []⟩]

/-- Side facets of an extruded contour of `n` points (bottom ring `0…n−1`,
top ring `n…2n−1`). -/
def prismSideFaces (n : ℕ) : List Face :=
  (List.range n).flatMap (fun i =>
    [normFace (i, (i + 1) % n, n + (i + 1) % n),
     normFace (i, n + (i + 1) % n, n + i)])

/-- Cap facets (fan triangulation) of an extruded contour of `n` points. -/
def prismCapFaces (n : ℕ) : List Face :=
  (List.range (n - 2)).flatMap (fun k =>
    [normFace (0, k + 2, k + 1), normFace (n, n + k + 1, n + k + 2)])

/-- Modelled from the spec: straight extrusion of a footprint contour
between heights `z0` and `z1` (the flat pad slab). -/
def prismMesh (poly : List Point2) (z0 z1 : ℤ) : TriangleMesh :=
  ⟨poly.map (fun q => ⟨q.x, q.y, z0⟩) ++ poly.map (fun q => ⟨q.x, q.y, z1⟩),
   prismSideFaces poly.length ++ prismCapFaces poly.length⟩

/-- Centroid of a contour (integer coordinates, `0` for an empty contour). -/
def centroid (poly : List Point2) : Point2 :=
  ⟨(poly.map Point2.x).sum / (poly.length : ℤ),
   (poly.map Point2.y).sum / (poly.length : ℤ)⟩

/-- Cavity inset: midpoint between a contour point and the centroid. -/
def insetPoint (c q : Point2) : Point2 := ⟨(q.x + c.x) / 2, (q.y + c.y) / 2⟩

/-- Facets of the walled pad (cup): bottom cap, outer wall, top rim, cavity
wall, cavity floor, over rings `0…n−1` (outer bottom), `n…2n−1` (outer top),
`2n…3n−1` (inner rim), `3n…4n−1` (cavity floor). -/
def cupFaces (n : ℕ) : List Face :=
  (List.range (n - 2)).map (fun k => normFace (0, k + 2, k + 1)) ++
  (List.range n).flatMap (fun i =>
    [normFace (i, (i + 1) % n, n + (i + 1) % n),
     normFace (i, n + (i + 1) % n, n + i)]) ++
  (List.range n).flatMap (fun i =>
    [normFace (n + i, n + (i + 1) % n, 2 * n + (i + 1) % n),
     normFace (n + i, 2 * n + (i + 1) % n, 2 * n + i)]) ++
  (List.range n).flatMap (fun i =>
    [normFace (2 * n + i, 2 * n + (i + 1) % n, 3 * n + (i + 1) % n),
     normFace (2 * n + i, 3 * n + (i + 1) % n, 3 * n + i)]) ++
  (List.range (n - 2)).map (fun k => normFace (3 * n, 3 * n + k + 1, 3 * n + k + 2))

/-- Modelled from the spec: the walled/winged pad — a vessel with outer
walls up to `full_height` and a cavity floor at the base thickness. -/
def cupMesh (poly : List Point2) (cfg : PadConfig) : TriangleMesh :=
  ⟨poly.map (fun q => ⟨q.x, q.y, 0⟩) ++
   poly.map (fun q => ⟨q.x, q.y, cfg.full_height⟩) ++
   poly.map (fun q => ⟨(insetPoint (centroid poly) q).x,
                       (insetPoint (centroid poly) q).y, cfg.full_height⟩) ++
   poly.map (fun q => ⟨(insetPoint (centroid poly) q).x,
                       (insetPoint (centroid poly) q).y, cfg.min_wall_thickness_mm⟩),
   cupFaces poly.length⟩

/-- Modelled from the spec: `sla::create_pad(support_contours,
model_contours, out_mesh, cfg)` — extrudes the footprint (model contours,
optionally unioned with support contours) into a flat slab when
`wall_height_mm = 0`, or a walled vessel with cavity when
`wall_height_mm > 0`. -/
def create_pad (sup mod : List ExPolygon) (cfg : PadConfig) : TriangleMesh :=
  mergeMeshes ((sup ++ mod).map (fun ep =>
    if cfg.wall_height_mm ≤ 0 then prismMesh ep.contour 0 cfg.full_height
    else cupMesh ep.contour cfg))

/-! ## Support points and support-tree synthesizer -/

/-- `sla::SupportPoint`: anchor position plus head-size metadata. -/
structure SupportPoint where
  pos : Point3
  head_front_radius : ℤ
deriving DecidableEq

/-- `sla::SupportConfig` (scaled millimetre quantities). -/
structure SupportConfig where
  object_elevation_mm : ℤ
  head_front_radius_mm : ℤ
  head_penetration_mm : ℤ
  base_height_mm : ℤ
  pillar_radius_mm : ℤ
deriving DecidableEq

/-- Default support configuration: elevation 5 mm, head radius 0.2 mm,
penetration 0.2 mm, base height 1 mm, pillar radius 0.5 mm. -/
def defaultSupportConfig : SupportConfig :=
  ⟨5 * mmScale, mmScale / 5, mmScale / 5, mmScale, mmScale / 2⟩

/-- `Slic3r::EPSILON` (1e-4 mm) in scaled units. -/
def EPSILON : ℤ := mmScale / 10000

/-- `sla::SLAAutoSupports::Config` — head diameter drives point density. -/
structure AutoSupportsConfig where
  head_diameter : ℤ
deriving DecidableEq

/-- Walk of the auto support-point generator over `(z, slice)` layers,
carrying the previous layer: each contour island of the current layer with
no material underneath in the previous layer receives one anchor at its
center, at the layer height. -/
def autoGo (d : ℤ) : Region2 → List (ℤ × Region2) → List SupportPoint
  | _, [] => []
  | prev, (z, cur) :: rest =>
      (cur.filter (fun r => (inter2 [r] prev).isEmpty)).map
        (fun r => ⟨⟨(r.lo.x + r.hi.x) / 2, (r.lo.y + r.hi.y) / 2, z⟩, d / 2⟩)
        ++ autoGo d cur rest

/-- Modelled from the spec: `sla::SLAAutoSupports` — analyzes the per-layer
slices over the Z grid and proposes anchors on newly appearing
(unsupported) islands. -/
def autoSupportPoints (acfg : AutoSupportsConfig) (slices : List Region2)
    (grid : List ℤ) : List SupportPoint :=
  autoGo acfg.head_diameter [] (grid.zip slices)

/-- Modelled from the spec: `sla::remove_bottom_points(pts, gnd, tol)` —
drops the support points lying within `tol` above level `gnd`, keeping the
others in order. -/
def remove_bottom_points : List SupportPoint → ℤ → ℤ → List SupportPoint
  | [], _, _ => []
  | p :: ps, gnd, tol =>
      if p.pos.z ≤ gnd + tol then remove_bottom_points ps gnd tol
      else p :: remove_bottom_points ps gnd tol

/-- Lowest Z of a solid (minimum of the box bottoms; `0` if empty). -/
def zminR (R : Region3) : ℤ := listMinD (R.map (fun b => b.lo.z))

/-- Highest Z of a solid (maximum of the box tops; `0` if empty). -/
def zmaxR (R : Region3) : ℤ := listMaxD (R.map (fun b => b.hi.z))

/-- `sla::SLASupportTree`: the arena of synthesized support primitives
(each a pillar-with-head box). -/
structure SLASupportTree where
  primitives : Region3
deriving DecidableEq

/-- Candidate pillar-with-head primitive for each support point: a box of
half-width `head_front_radius` around the anchor, from the ground level up
to the anchor. -/
def candidatePillars (pts : List SupportPoint) (gnd : ℤ) : Region3 :=
  pts.map (fun p =>
    ⟨⟨p.pos.x - p.head_front_radius, p.pos.y - p.head_front_radius, gnd⟩,
     ⟨p.pos.x + p.head_front_radius, p.pos.y + p.head_front_radius, p.pos.z⟩⟩)

/-- Modelled from the spec: the support-tree synthesizer
(`sla::SLASupportTree(points, emesh, cfg)`).  Grows a pillar-with-head
primitive per anchor down to the ground plane at `object_elevation_mm`
below the model; when `head_penetration_mm < 0` the primitives are carved
against the model dilated by the penetration gap, so the tree terminates
strictly outside the model (geometric enforcement, not a nominal offset). -/
def buildTree (pts : List SupportPoint) (solid : Region3) (cfg : SupportConfig) :
    SLASupportTree :=
  let gnd := zminR solid - cfg.object_elevation_mm
  let cand := candidatePillars pts gnd
  ⟨if cfg.head_penetration_mm < 0 then
      regionDiff cand (dilate solid (-cfg.head_penetration_mm))
    else cand⟩

/-- `SLASupportTree::slice(grid, closing_radius)`: re-slice the tree over a
caller-supplied Z grid with the common slicer. -/
def SLASupportTree.slice (t : SLASupportTree) (grid : List ℤ) (cr : ℤ) :
    List Region2 :=
  slicerSlice t.primitives grid cr

/-- `SLASupportTree::merged_mesh()`: single mesh merged from the arena of
primitives. -/
def SLASupportTree.merged_mesh (t : SLASupportTree) : TriangleMesh :=
  mergeMeshes (t.primitives.map boxMesh)

/-! ## The test pipeline of `test_supports` (from the test file) -/

/-- The Z grid of `test_supports`: from `zmin − object_elevation_mm` to
`zmax`, with layer height `h`. -/
def pipelineGrid (solid : Region3) (cfg : SupportConfig) (h : ℤ) : List ℤ :=
  gridF (zminR solid - cfg.object_elevation_mm) (zmaxR solid) h

/-- The model slices of `test_supports`. -/
def pipelineSlices (solid : Region3) (cfg : SupportConfig) (h cr : ℤ) :
    List Region2 :=
  slicerSlice solid (pipelineGrid solid cfg h) cr

/-- The auto-generated support points of `test_supports`
(`head_diameter = 2 * head_front_radius_mm`). -/
def pipelineRawPoints (solid : Region3) (cfg : SupportConfig) (h cr : ℤ) :
    List SupportPoint :=
  autoSupportPoints ⟨2 * cfg.head_front_radius_mm⟩
    (pipelineSlices solid cfg h cr) (pipelineGrid solid cfg h)

/-- The support points actually used by `test_supports`: pruned below the
bottom band when there is no elevation (`object_elevation_mm < EPSILON`). -/
def pipelinePoints (solid : Region3) (cfg : SupportConfig) (h cr : ℤ) :
    List SupportPoint :=
  if cfg.object_elevation_mm < EPSILON then
    remove_bottom_points (pipelineRawPoints solid cfg h cr) (zminR solid)
      cfg.base_height_mm
  else pipelineRawPoints solid cfg h cr

/-- The synthesized support tree of `test_supports`. -/
def pipelineTree (solid : Region3) (cfg : SupportConfig) (h cr : ℤ) :
    SLASupportTree :=
  buildTree (pipelinePoints solid cfg h cr) solid cfg

/-! ## The standard test models (`20mm_cube.obj`, `cube_with_hole.obj`) -/

/-- The 20 mm cube test mesh. -/
def cube20 : TriangleMesh :=
  boxMesh ⟨⟨0, 0, 0⟩, ⟨20 * mmScale, 20 * mmScale, 20 * mmScale⟩⟩

/-- Solid occupancy of the 20 mm cube (the `EigenMesh3D` view). -/
def cubeSolid : Region3 :=
  [⟨⟨0, 0, 0⟩, ⟨20 * mmScale, 20 * mmScale, 20 * mmScale⟩⟩]

/-- The cube-with-hole test mesh: a 20 mm cube with a 4×4 mm square tunnel
along the X axis (tunnel cross-section `y, z ∈ [8 mm, 12 mm]`). -/
def holeMesh : TriangleMesh :=
  ⟨[⟨0, 0, 0⟩, ⟨20 * mmScale, 0, 0⟩,
    ⟨20 * mmScale, 20 * mmScale, 0⟩, ⟨0, 20 * mmScale, 0⟩,
    ⟨0, 0, 20 * mmScale⟩, ⟨20 * mmScale, 0, 20 * mmScale⟩,
    ⟨20 * mmScale, 20 * mmScale, 20 * mmScale⟩, ⟨0, 20 * mmScale, 20 * mmScale⟩,
    ⟨0, 8 * mmScale, 8 * mmScale⟩, ⟨0, 12 * mmScale, 8 * mmScale⟩,
    ⟨0, 12 * mmScale, 12 * mmScale⟩, ⟨0, 8 * mmScale, 12 * mmScale⟩,
    ⟨20 * mmScale, 8 * mmScale, 8 * mmScale⟩, ⟨20 * mmScale, 12 * mmScale, 8 * mmScale⟩,
    ⟨20 * mmScale, 12 * mmScale, 12 * mmScale⟩, ⟨20 * mmScale, 8 * mmScale, 12 * mmScale⟩],
   ([(0, 2, 1), (0, 3, 2), (4, 5, 6), (4, 6, 7), (0, 1, 5), (0, 5, 4),
     (2, 3, 7), (2, 7, 6),
     (0, 3, 9), (0, 9, 8), (3, 7, 10), (3, 10, 9), (7, 4, 11), (7, 11, 10),
     (4, 0, 8), (4, 8, 11),
     (2, 1, 12), (2, 12, 13), (6, 2, 13), (6, 13, 14), (5, 6, 14), (5, 14, 15),
     (1, 5, 15), (1, 15, 12),
     (8, 9, 13), (8, 13, 12), (9, 10, 14), (9, 14, 13), (10, 11, 15), (10, 15, 14),
     (11, 8, 12), (11, 12, 15)] : List Face).map normFace⟩

/-- Solid occupancy of the cube-with-hole. -/
def holeSolid : Region3 :=
  [⟨⟨0, 0, 0⟩, ⟨20 * mmScale, 20 * mmScale, 8 * mmScale⟩⟩,
   ⟨⟨0, 0, 8 * mmScale⟩, ⟨20 * mmScale, 8 * mmScale, 12 * mmScale⟩⟩,
   ⟨⟨0, 12 * mmScale, 8 * mmScale⟩, ⟨20 * mmScale, 20 * mmScale, 12 * mmScale⟩⟩,
   ⟨⟨0, 0, 12 * mmScale⟩, ⟨20 * mmScale, 20 * mmScale, 20 * mmScale⟩⟩]

/-- Layer height used for the concrete pipeline instances (5 mm). -/
def testLayerH : ℤ := 5 * mmScale

/-- `CLOSING_RADIUS` of the test file (0.005 mm). -/
def testCR : ℤ := mmScale / 200

/-- Pad generated for the cube footprint by the `test_pad` pipeline. -/
def cubePadMesh : TriangleMesh := create_pad [] (pad_blueprint cube20) defaultPadConfig

/-- Pad generated for the cube-with-hole footprint. -/
def holePadMesh : TriangleMesh := create_pad [] (pad_blueprint holeMesh) defaultPadConfig

/-- Merged support mesh of the cube under the default (elevated) config. -/
def cubeSupportMesh : TriangleMesh :=
  (pipelineTree cubeSolid defaultSupportConfig testLayerH testCR).merged_mesh

/-- Merged support mesh of the cube-with-hole under the default config. -/
def holeSupportMesh : TriangleMesh :=
  (pipelineTree holeSolid defaultSupportConfig testLayerH testCR).merged_mesh

/-- Zero-elevation support configuration (`SupportsFloor` test). -/
def floorSupportConfig : SupportConfig :=
  ⟨0, mmScale / 5, mmScale / 5, mmScale, mmScale / 2⟩

/-- Configuration of `test_support_model_collision`: default with
`head_penetration_mm = −0.1 mm`. -/
def collisionSupportConfig : SupportConfig :=
  ⟨5 * mmScale, mmScale / 5, -(mmScale / 10), mmScale, mmScale / 2⟩

/-- Winged pad configuration of the `PadWinged` test (1 mm wall height). -/
def wingedPadConfig : PadConfig := ⟨2 * mmScale, mmScale, 50 * mmScale, mmScale⟩

/-- The square footprint contour of the 20 mm cube. -/
def sqExPoly : ExPolygon :=
  ⟨[⟨0, 0⟩, ⟨20 * mmScale, 0⟩, ⟨20 * mmScale, 20 * mmScale⟩, ⟨0, 20 * mmScale⟩], []⟩

/-- A sample support point on the bottom face of the cube. -/
def samplePoint : SupportPoint := ⟨⟨10 * mmScale, 10 * mmScale, 0⟩, mmScale / 5⟩

/-- Sample boxes for the slicer traversal-order instance. -/
def permBoxA : Box3 := ⟨⟨0, 0, 0⟩, ⟨mmScale, mmScale, mmScale⟩⟩

/-- Second sample box for the slicer traversal-order instance. -/
def permBoxB : Box3 := ⟨⟨2 * mmScale, 0, 0⟩, ⟨3 * mmScale, mmScale, mmScale⟩⟩

theorem minOf_le_seed (x : ℤ) (l : List ℤ) : minOf x l ≤ x := by
  induction l generalizing x with
  | nil => exact le_refl x
  | cons a l ih =>
      have h := ih (min x a)
      exact le_trans h (min_le_left x a)

theorem minOf_le_mem (x y : ℤ) (l : List ℤ) (hy : y ∈ l) : minOf x l ≤ y := by
  induction l generalizing x with
  | nil => cases hy
  | cons a l ih =>
      rcases List.mem_cons.mp hy with h | h
      · subst h
        exact le_trans (minOf_le_seed (min x y) l) (min_le_right x y)
      · exact ih (min x a) h

theorem le_minOf (c x : ℤ) (l : List ℤ) (hx : c ≤ x) (hl : ∀ y ∈ l, c ≤ y) :
    c ≤ minOf x l := by
  induction l generalizing x with
  | nil => exact hx
  | cons a l ih =>
      exact ih (min x a) (le_min hx (hl a (List.mem_cons_self a l)))
        (fun y hy => hl y (List.mem_cons_of_mem a hy))

theorem seed_le_maxOf (x : ℤ) (l : List ℤ) : x ≤ maxOf x l := by
  induction l generalizing x with
  | nil => exact le_refl x
  | cons a l ih =>
      have h := ih (max x a)
      exact le_trans (le_max_left x a) h

theorem mem_le_maxOf (x y : ℤ) (l : List ℤ) (hy : y ∈ l) : y ≤ maxOf x l := by
  induction l generalizing x with
  | nil => cases hy
  | cons a l ih =>
      rcases List.mem_cons.mp hy with h | h
      · subst h
        exact le_trans (le_max_right x y) (seed_le_maxOf (max x y) l)
      · exact ih (max x a) h

theorem maxOf_le (c x : ℤ) (l : List ℤ) (hx : x ≤ c) (hl : ∀ y ∈ l, y ≤ c) :
    maxOf x l ≤ c := by
  induction l generalizing x with
  | nil => exact hx
  | cons a l ih =>
      exact ih (max x a) (max_le hx (hl a (List.mem_cons_self a l)))
        (fun y hy => hl y (List.mem_cons_of_mem a hy))

theorem listMinD_le_mem (l : List ℤ) (y : ℤ) (hy : y ∈ l) : listMinD l ≤ y := by
  cases l with
  | nil => cases hy
  | cons x l =>
      rcases List.mem_cons.mp hy with h | h
      · subst h; exact minOf_le_seed y l
      · exact minOf_le_mem x y l h

theorem le_listMinD (l : List ℤ) (c : ℤ) (hne : l ≠ []) (hl : ∀ y ∈ l, c ≤ y) :
    c ≤ listMinD l := by
  cases l with
  | nil => exact absurd rfl hne
  | cons x l =>
      exact le_minOf c x l (hl x (List.mem_cons_self x l))
        (fun y hy => hl y (List.mem_cons_of_mem x hy))

theorem mem_le_listMaxD (l : List ℤ) (y : ℤ) (hy : y ∈ l) : y ≤ listMaxD l := by
  cases l with
  | nil => cases hy
  | cons x l =>
      rcases List.mem_cons.mp hy with h | h
      · subst h; exact seed_le_maxOf y l
      · exact mem_le_maxOf x y l h

theorem listMaxD_le (l : List ℤ) (c : ℤ) (hne : l ≠ []) (hl : ∀ y ∈ l, y ≤ c) :
    listMaxD l ≤ c := by
  cases l with
  | nil => exact absurd rfl hne
  | cons x l =>
      exact maxOf_le c x l (hl x (List.mem_cons_self x l))
        (fun y hy => hl y (List.mem_cons_of_mem x hy))

theorem listMinD_eq (l : List ℤ) (c : ℤ) (hmem : c ∈ l) (hl : ∀ y ∈ l, c ≤ y) :
    listMinD l = c :=
  le_antisymm (listMinD_le_mem l c hmem)
    (le_listMinD l c (List.ne_nil_of_mem hmem) hl)

theorem listMaxD_eq (l : List ℤ) (c : ℤ) (hmem : c ∈ l) (hl : ∀ y ∈ l, y ≤ c) :
    listMaxD l = c :=
  le_antisymm (listMaxD_le l c (List.ne_nil_of_mem hmem) hl)
    (mem_le_listMaxD l c hmem)

theorem validRect_of_memRect (q : Point2) (r : Rect2) (h : memRect q r) :
    validRect r :=
  ⟨lt_of_le_of_lt h.1 h.2.1, lt_of_le_of_lt h.2.2.1 h.2.2.2⟩

theorem validBox_of_memBox (p : Point3) (b : Box3) (h : memBox p b) :
    validBox b :=
  ⟨lt_of_le_of_lt h.1 h.2.1, lt_of_le_of_lt h.2.2.1 h.2.2.2.1,
    lt_of_le_of_lt h.2.2.2.2.1 h.2.2.2.2.2⟩

theorem rectInter_some (a b c : Rect2) (h : rectInter a b = some c) :
    validRect c ∧ memRect c.lo a ∧ memRect c.lo b := by
  simp only [rectInter] at h
  split at h
  · rename_i hv
    cases h
    refine ⟨hv, ⟨le_max_left _ _, lt_of_lt_of_le hv.1 (min_le_left _ _),
      le_max_left _ _, lt_of_lt_of_le hv.2 (min_le_left _ _)⟩,
      ⟨le_max_right _ _, lt_of_lt_of_le hv.1 (min_le_right _ _),
      le_max_right _ _, lt_of_lt_of_le hv.2 (min_le_right _ _)⟩⟩
  · cases h

theorem length_slicerSlice (R : Region3) (grid : List ℤ) (cr : ℤ) :
    (slicerSlice R grid cr).length = grid.length :=
  List.length_map grid _

theorem exists_box_of_mem_sliceAt (R : Region3) (z cr : ℤ) (r : Rect2)
    (hr : r ∈ sliceAt R z cr) :
    ∃ b ∈ R, b.lo.z ≤ z ∧ z < b.hi.z ∧
      r = ⟨⟨b.lo.x, b.lo.y⟩, ⟨b.hi.x, b.hi.y⟩⟩ := by
  unfold sliceAt at hr
  rcases List.mem_filterMap.mp hr with ⟨b, hb, hf⟩
  refine ⟨b, hb, ?_⟩
  rcases hsb : sliceBox b z with _ | r0
  · rw [hsb] at hf; cases hf
  · rw [hsb] at hf
    dsimp only at hf
    by_cases hcr : cr ≤ r0.hi.x - r0.lo.x ∧ cr ≤ r0.hi.y - r0.lo.y
    · rw [if_pos hcr] at hf
      cases hf
      unfold sliceBox at hsb
      by_cases hz : b.lo.z ≤ z ∧ z < b.hi.z
      · rw [if_pos hz] at hsb
        cases hsb
        exact ⟨hz.1, hz.2, rfl⟩
      · rw [if_neg hz] at hsb; cases hsb
    · rw [if_neg hcr] at hf; cases hf

/-- A point of a slice lifts to a 3D point of the sliced solid. -/
theorem memR3_of_mem_sliceAt (R : Region3) (z cr : ℤ) (r : Rect2)
    (hr : r ∈ sliceAt R z cr) (q : Point2) (hq : memRect q r) :
    memR3 ⟨q.x, q.y, z⟩ R := by
  rcases exists_box_of_mem_sliceAt R z cr r hr with ⟨b, hb, hz1, hz2, hre⟩
  subst hre
  exact ⟨b, hb, hq.1, hq.2.1, hq.2.2.1, hq.2.2.2, hz1, hz2⟩

theorem mem_gridF_le (start stop step z : ℤ) (hstep : 0 < step)
    (hle : start ≤ stop) (hz : z ∈ gridF start stop step) : z ≤ stop := by
  unfold gridF at hz
  rcases List.mem_map.mp hz with ⟨k, hk, hzk⟩
  subst hzk
  have hk' : k ≤ (stop - start).toNat / step.toNat := by
    have := List.mem_range.mp hk
    omega
  have hmul : k * step.toNat ≤ (stop - start).toNat := by
    have hstep' : 0 < step.toNat := by omega
    exact (Nat.le_div_iff_mul_le hstep').mp hk'
  have hcast : (k : ℤ) * step ≤ stop - start := by
    have h1 : ((k * step.toNat : ℕ) : ℤ) ≤ (((stop - start).toNat : ℕ) : ℤ) := by
      exact_mod_cast hmul
    have h2 : ((step.toNat : ℕ) : ℤ) = step := by omega
    have h3 : (((stop - start).toNat : ℕ) : ℤ) = stop - start := by omega
    push_cast at h1
    rw [h2, h3] at h1
    exact h1
  linarith

theorem memR3_dilate_of_memR3 (R : Region3) (d : ℤ) (hd : 0 ≤ d) (p : Point3)
    (hp : memR3 p R) : memR3 p (dilate R d) := by
  rcases hp with ⟨b, hb, hm⟩
  refine ⟨_, List.mem_map_of_mem _ hb, ?_⟩
  obtain ⟨h1, h2, h3, h4, h5, h6⟩ := hm
  refine ⟨?_, ?_, ?_, ?_, ?_, ?_⟩ <;> dsimp only <;> linarith

theorem z_lb_of_memR3_dilate (R : Region3) (d : ℤ) (p : Point3) (c : ℤ)
    (hc : ∀ b ∈ R, c ≤ b.lo.z) (hp : memR3 p (dilate R d)) : c - d ≤ p.z := by
  rcases hp with ⟨b', hb', hm⟩
  rcases List.mem_map.mp hb' with ⟨b, hb, hbe⟩
  subst hbe
  have := hc b hb
  have h5 := hm.2.2.2.2.1
  dsimp only at h5
  linarith

theorem memR3_filter_validBox (l : List Box3) (p : Point3) :
    memR3 p (l.filter (fun c => decide (validBox c))) ↔ memR3 p l := by
  constructor
  · rintro ⟨b, hb, hm⟩
    exact ⟨b, (List.mem_filter.mp hb).1, hm⟩
  · rintro ⟨b, hb, hm⟩
    refine ⟨b, List.mem_filter.mpr ⟨hb, ?_⟩, hm⟩
    exact decide_eq_true (validBox_of_memBox p b hm)

set_option maxHeartbeats 1000000 in
theorem memR3_boxDiff (a b : Box3) (p : Point3) :
    memR3 p (boxDiff a b) ↔ memBox p a ∧ ¬ memBox p b := by
  rw [boxDiff, memR3_filter_validBox]
  simp only [memR3, boxDiffPieces, List.mem_cons, List.not_mem_nil, or_false,
    exists_eq_or_imp, exists_eq_left, memBox]
  omega

theorem memR3_flatMap_boxDiff (A : Region3) (b : Box3) (p : Point3) :
    memR3 p (A.flatMap (fun a => boxDiff a b)) ↔ memR3 p A ∧ ¬ memBox p b := by
  constructor
  · rintro ⟨d, hd, hm⟩
    rcases List.mem_flatMap.mp hd with ⟨a, ha, hda⟩
    have := (memR3_boxDiff a b p).mp ⟨d, hda, hm⟩
    exact ⟨⟨a, ha, this.1⟩, this.2⟩
  · rintro ⟨⟨a, ha, hma⟩, hnb⟩
    rcases (memR3_boxDiff a b p).mpr ⟨hma, hnb⟩ with ⟨d, hd, hm⟩
    exact ⟨d, List.mem_flatMap.mpr ⟨a, ha, hd⟩, hm⟩

theorem memR3_regionDiff (A B : Region3) (p : Point3) :
    memR3 p (regionDiff A B) ↔ memR3 p A ∧ ¬ memR3 p B := by
  induction B generalizing A with
  | nil =>
      simp [regionDiff, memR3]
  | cons b B ih =>
      have hstep : regionDiff A (b :: B)
          = regionDiff (A.flatMap (fun a => boxDiff a b)) B := rfl
      rw [hstep, ih, memR3_flatMap_boxDiff]
      constructor
      · rintro ⟨⟨hA, hnb⟩, hnB⟩
        refine ⟨hA, ?_⟩
        rintro ⟨c, hc, hm⟩
        rcases List.mem_cons.mp hc with h | h
        · exact hnb (h ▸ hm)
        · exact hnB ⟨c, h, hm⟩
      · rintro ⟨hA, hn⟩
        refine ⟨⟨hA, fun hm => hn ⟨b, List.mem_cons_self b B, hm⟩⟩, ?_⟩
        rintro ⟨c, hc, hm⟩
        exact hn ⟨c, List.mem_cons_of_mem b hc, hm⟩

theorem subBox_refl (a : Box3) : subBox a a := by
  unfold subBox
  omega

theorem subBox_trans (c d a : Box3) (h1 : subBox c d) (h2 : subBox d a) :
    subBox c a := by
  unfold subBox at *
  omega

theorem subBox_of_mem_boxDiff (a b d : Box3) (hd : d ∈ boxDiff a b) :
    subBox d a ∧ validBox d := by
  have hv : validBox d := by
    have := (List.mem_filter.mp hd).2
    exact of_decide_eq_true this
  refine ⟨?_, hv⟩
  have hp : d ∈ boxDiffPieces a b := (List.mem_filter.mp hd).1
  simp only [boxDiffPieces, List.mem_cons, List.not_mem_nil, or_false] at hp
  unfold subBox
  rcases hp with h | h | h | h | h | h <;> subst h <;> dsimp only <;> omega

theorem sub_of_mem_regionDiff (A B : Region3) (d : Box3)
    (hd : d ∈ regionDiff A B) : ∃ a ∈ A, subBox d a := by
  induction B generalizing A with
  | nil => exact ⟨d, hd, subBox_refl d⟩
  | cons b B ih =>
      have hstep : regionDiff A (b :: B)
          = regionDiff (A.flatMap (fun a => boxDiff a b)) B := rfl
      rw [hstep] at hd
      rcases ih _ hd with ⟨a', ha', hsub⟩
      rcases List.mem_flatMap.mp ha' with ⟨a, ha, hda⟩
      exact ⟨a, ha, subBox_trans d a' a hsub (subBox_of_mem_boxDiff a b a' hda).1⟩

theorem valid_or_mem_of_mem_regionDiff (A B : Region3) (d : Box3)
    (hd : d ∈ regionDiff A B) : d ∈ A ∨ validBox d := by
  induction B generalizing A with
  | nil => exact Or.inl hd
  | cons b B ih =>
      have hstep : regionDiff A (b :: B)
          = regionDiff (A.flatMap (fun a => boxDiff a b)) B := rfl
      rw [hstep] at hd
      rcases ih _ hd with h | h
      · rcases List.mem_flatMap.mp h with ⟨a, _, hda⟩
        exact Or.inr (subBox_of_mem_boxDiff a b d hda).2
      · exact Or.inr h

theorem normFace_idem (f : Face) : normFace (normFace f) = normFace f := by
  rcases f with ⟨a, b, c⟩
  unfold normFace
  dsimp only
  split_ifs <;> dsimp only at * <;>
    first
      | rfl
      | (simp only [Prod.mk.injEq]; omega)

theorem validFace_normFace (n : ℕ) (f : Face) :
    validFace n (normFace f) ↔ validFace n f := by
  rcases f with ⟨a, b, c⟩
  unfold normFace validFace
  dsimp only
  split_ifs <;> dsimp only at * <;> constructor <;> intro h <;> omega

theorem foldl_appendMesh_vertices (l : List TriangleMesh) (acc : TriangleMesh) :
    (l.foldl appendMesh acc).vertices
      = acc.vertices ++ (l.map TriangleMesh.vertices).flatten := by
  induction l generalizing acc with
  | nil => simp
  | cons a l ih =>
      simp only [List.foldl_cons, ih, List.map_cons, List.flatten_cons]
      show (acc.vertices ++ a.vertices) ++ _ = _
      rw [List.append_assoc]

theorem mergeMeshes_vertices (l : List TriangleMesh) :
    (mergeMeshes l).vertices = (l.map TriangleMesh.vertices).flatten := by
  unfold mergeMeshes
  rw [foldl_appendMesh_vertices]
  rfl

theorem z_of_mem_boxCorners (b : Box3) (v : Point3) (hv : v ∈ boxCorners b) :
    v.z = b.lo.z ∨ v.z = b.hi.z := by
  simp only [boxCorners, List.mem_cons, List.not_mem_nil, or_false] at hv
  rcases hv with h | h | h | h | h | h | h | h <;> subst h <;> simp

theorem lo_mem_boxCorners (b : Box3) :
    (⟨b.lo.x, b.lo.y, b.lo.z⟩ : Point3) ∈ boxCorners b := by
  simp [boxCorners]

/-! ## Repair idempotence -/

theorem mem_repairFaces_valid (m : TriangleMesh) (f : Face)
    (hf : f ∈ repairFaces m) : validFace m.vertices.length f := by
  unfold repairFaces at hf
  rcases List.mem_map.mp hf with ⟨g, hg, hgf⟩
  have hgv : validFace m.vertices.length g :=
    of_decide_eq_true (List.mem_filter.mp hg).2
  subst hgf
  exact (validFace_normFace _ g).mpr hgv

theorem filter_eq_self_of_valid (n : ℕ) (l : List Face)
    (h : ∀ f ∈ l, validFace n f) :
    l.filter (fun f => decide (validFace n f)) = l := by
  induction l with
  | nil => rfl
  | cons a l ih =>
      have ha := decide_eq_true (h a (List.mem_cons_self a l))
      simp only [List.filter_cons, ha, if_true]
      rw [ih (fun f hf => h f (List.mem_cons_of_mem a hf))]

theorem map_normFace_idem (l : List Face) :
    (l.map normFace).map normFace = l.map normFace := by
  rw [List.map_map]
  exact List.map_congr_left (fun f _ => normFace_idem f)

theorem repairFaces_repair (m : TriangleMesh) :
    repairFaces m.repair = repairFaces m := by
  show ((repairFaces m).filter
      (fun f => decide (validFace m.vertices.length f))).map normFace
    = repairFaces m
  rw [filter_eq_self_of_valid m.vertices.length (repairFaces m)
    (mem_repairFaces_valid m)]
  unfold repairFaces
  exact map_normFace_idem _

/-- C6: `repair` is idempotent — repairing an already-repaired mesh changes
neither its geometry (vertex and facet lists) nor the subsequent
`needed_repair()` result, which is `false` after one repair pass. -/
theorem claim_C6_repair_idempotent (m : TriangleMesh) :
    m.repair.repair = m.repair ∧ neededRepair m.repair = false := by
  constructor
  · show (⟨m.repair.vertices, repairFaces m.repair⟩ : TriangleMesh) = m.repair
    rw [repairFaces_repair m]
    rfl
  · unfold neededRepair
    rw [repairFaces_repair m]
    simp [TriangleMesh.repair]

/-! ## Slice-count correspondence -/

theorem length_treeSlice (t : SLASupportTree) (grid : List ℤ) (cr : ℤ) :
    (t.slice grid cr).length = grid.length :=
  length_slicerSlice t.primitives grid cr

/-- C4: slicing the synthesized support tree over the Z grid used for the
model returns one polygon set per grid element — the same count as the
model's slice sequence. -/
theorem claim_C4_slice_count (t : SLASupportTree) (solid : Region3)
    (grid : List ℤ) (cr : ℤ) :
    (t.slice grid cr).length = (slicerSlice solid grid cr).length ∧
    (t.slice grid cr).length = grid.length := by
  rw [length_treeSlice, length_slicerSlice]
  exact ⟨rfl, rfl⟩

/-! ## Empty-footprint signalling of the pad blueprint -/

/-- C8: `pad_blueprint` produces an empty contour set exactly for an empty
mesh (empty output signals the empty-mesh case; any nonempty mesh yields at
least one footprint contour). -/
theorem claim_C8_blueprint_empty (m : TriangleMesh)
    (hwf : m.faces ≠ [] → m.vertices ≠ []) :
    pad_blueprint m = [] ↔ m.empty = true := by
  unfold pad_blueprint TriangleMesh.empty
  by_cases hf : m.faces.isEmpty
  · simp [hf]
  · have hfne : m.faces ≠ [] := by
      intro h
      exact hf (by simp [h])
    have hv : ¬ m.vertices.isEmpty := by
      intro hvv
      exact hwf hfne (List.isEmpty_iff.mp hvv)
    simp [hf, hv]

theorem claim_C8_blueprint_empty_wit :
    pad_blueprint cube20 = [] ↔ cube20.empty = true :=
  claim_C8_blueprint_empty cube20 (fun _ => by decide)

/-! ## Determinism / traversal-order independence of the slicer -/

/-- C9: the slicer is a pure function of mesh, grid and closing radius; two
runs on geometrically identical meshes (facet lists equal up to traversal
order) give slice sequences of equal length whose layers are equal up to
order — no dependence on traversal order. -/
theorem claim_C9_slicer_deterministic (R1 R2 : Region3) (grid : List ℤ)
    (cr : ℤ) (hperm : R1.Perm R2) :
    (slicerSlice R1 grid cr).length = (slicerSlice R2 grid cr).length ∧
    List.Forall₂ List.Perm (slicerSlice R1 grid cr) (slicerSlice R2 grid cr) := by
  constructor
  · rw [length_slicerSlice, length_slicerSlice]
  · unfold slicerSlice sliceAt
    induction grid with
    | nil => exact List.Forall₂.nil
    | cons z g ih => exact List.Forall₂.cons (hperm.filterMap _) ih

theorem claim_C9_slicer_deterministic_wit :
    (slicerSlice [permBoxA, permBoxB] [0] testCR).length
      = (slicerSlice [permBoxB, permBoxA] [0] testCR).length ∧
    List.Forall₂ List.Perm (slicerSlice [permBoxA, permBoxB] [0] testCR)
      (slicerSlice [permBoxB, permBoxA] [0] testCR) :=
  claim_C9_slicer_deterministic [permBoxA, permBoxB] [permBoxB, permBoxA]
    [0] testCR (List.Perm.swap permBoxB permBoxA [])

/-! ## Empty support-point set (zero-elevation outcome) -/

theorem regionDiff_nil_left (B : Region3) : regionDiff [] B = [] := by
  induction B with
  | nil => rfl
  | cons b B ih => exact ih

/-- C10: synthesizing a support tree from an empty support-point set
succeeds and yields an empty merged mesh, which passes the zero-elevation
validity check (`ASSUME_NO_REPAIR` only) — the empty mesh is a valid
outcome exempt from the non-emptiness and manifoldness requirements. -/
theorem claim_C10_empty_points_ok (solid : Region3) (cfg : SupportConfig) :
    (buildTree [] solid cfg).merged_mesh.empty = true ∧
    checkValidity (buildTree [] solid cfg).merged_mesh ⟨false, false, true⟩
      = true := by
  have hprim : (buildTree [] solid cfg).primitives = [] := by
    show (if cfg.head_penetration_mm < 0 then
        regionDiff (candidatePillars [] _) (dilate solid _)
      else candidatePillars [] _) = []
    unfold candidatePillars
    rw [List.map_nil]
    split
    · exact regionDiff_nil_left _
    · rfl
  have hmesh : (buildTree [] solid cfg).merged_mesh = ⟨[], []⟩ := by
    unfold SLASupportTree.merged_mesh
    rw [hprim]
    rfl
  rw [hmesh]
  exact ⟨rfl, rfl⟩

/-! ## Bottom-point pruning at zero elevation -/

theorem mem_remove_bottom_points (pts : List SupportPoint) (gnd tol : ℤ)
    (p : SupportPoint) :
    p ∈ remove_bottom_points pts gnd tol ↔ p ∈ pts ∧ gnd + tol < p.pos.z := by
  induction pts with
  | nil => simp [remove_bottom_points]
  | cons q ps ih =>
      by_cases hq : q.pos.z ≤ gnd + tol
      · rw [remove_bottom_points, if_pos hq, ih]
        constructor
        · rintro ⟨hm, hz⟩
          exact ⟨List.mem_cons_of_mem q hm, hz⟩
        · rintro ⟨hm, hz⟩
          rcases List.mem_cons.mp hm with h | h
          · subst h; omega
          · exact ⟨h, hz⟩
      · rw [remove_bottom_points, if_neg hq]
        constructor
        · intro hm
          rcases List.mem_cons.mp hm with h | h
          · subst h
            exact ⟨List.mem_cons_self p ps, by omega⟩
          · have := ih.mp h
            exact ⟨List.mem_cons_of_mem q this.1, this.2⟩
        · rintro ⟨hm, hz⟩
          rcases List.mem_cons.mp hm with h | h
          · subst h; exact List.mem_cons_self p _
          · exact List.mem_cons_of_mem q (ih.mpr ⟨h, hz⟩)

theorem sublist_remove_bottom_points (pts : List SupportPoint) (gnd tol : ℤ) :
    (remove_bottom_points pts gnd tol).Sublist pts := by
  induction pts with
  | nil => exact List.Sublist.refl []
  | cons q ps ih =>
      by_cases hq : q.pos.z ≤ gnd + tol
      · rw [remove_bottom_points, if_pos hq]
        exact List.Sublist.cons q ih
      · rw [remove_bottom_points, if_neg hq]
        exact List.Sublist.cons₂ q ih

/-- C7: at zero elevation, the support-point set actually used is the
auto-generated set with exactly those points within `base_height_mm` above
the model's lowest Z removed; all other points are kept unchanged, in
order. -/
theorem claim_C7_bottom_points_removed (solid : Region3) (cfg : SupportConfig)
    (h cr : ℤ) (p : SupportPoint) (hE : cfg.object_elevation_mm = 0) :
    (p ∈ pipelinePoints solid cfg h cr ↔
      p ∈ pipelineRawPoints solid cfg h cr ∧
        zminR solid + cfg.base_height_mm < p.pos.z) ∧
    (pipelinePoints solid cfg h cr).Sublist (pipelineRawPoints solid cfg h cr) := by
  have hcond : cfg.object_elevation_mm < EPSILON := by
    rw [hE]; decide
  unfold pipelinePoints
  rw [if_pos hcond]
  exact ⟨mem_remove_bottom_points _ _ _ p, sublist_remove_bottom_points _ _ _⟩

theorem claim_C7_bottom_points_removed_wit :
    (samplePoint ∈ pipelinePoints cubeSolid floorSupportConfig testLayerH testCR ↔
      samplePoint ∈ pipelineRawPoints cubeSolid floorSupportConfig testLayerH testCR ∧
        zminR cubeSolid + floorSupportConfig.base_height_mm < samplePoint.pos.z) ∧
    (pipelinePoints cubeSolid floorSupportConfig testLayerH testCR).Sublist
      (pipelineRawPoints cubeSolid floorSupportConfig testLayerH testCR) :=
  claim_C7_bottom_points_removed cubeSolid floorSupportConfig testLayerH testCR
    samplePoint rfl

/-! ## Pad height invariant -/

theorem z_of_mem_prismMesh (poly : List Point2) (z0 z1 : ℤ) (v : Point3)
    (hv : v ∈ (prismMesh poly z0 z1).vertices) : v.z = z0 ∨ v.z = z1 := by
  unfold prismMesh at hv
  dsimp only at hv
  rcases List.mem_append.mp hv with h | h <;>
    rcases List.mem_map.mp h with ⟨q, _, hq⟩ <;> subst hq <;> simp

theorem ends_mem_prismMesh (poly : List Point2) (z0 z1 : ℤ) (hne : poly ≠ []) :
    (∃ v ∈ (prismMesh poly z0 z1).vertices, v.z = z0) ∧
    (∃ v ∈ (prismMesh poly z0 z1).vertices, v.z = z1) := by
  rcases List.exists_mem_of_ne_nil poly hne with ⟨q, hq⟩
  constructor
  · exact ⟨⟨q.x, q.y, z0⟩,
      List.mem_append_left _ (List.mem_map_of_mem _ hq), rfl⟩
  · exact ⟨⟨q.x, q.y, z1⟩,
      List.mem_append_right _ (List.mem_map_of_mem _ hq), rfl⟩

theorem z_of_mem_cupMesh (poly : List Point2) (cfg : PadConfig) (v : Point3)
    (hv : v ∈ (cupMesh poly cfg).vertices) :
    v.z = 0 ∨ v.z = cfg.full_height ∨ v.z = cfg.min_wall_thickness_mm := by
  unfold cupMesh at hv
  dsimp only at hv
  rcases List.mem_append.mp hv with h | h
  · rcases List.mem_append.mp h with h | h
    · rcases List.mem_append.mp h with h | h <;>
        rcases List.mem_map.mp h with ⟨q, _, hq⟩ <;> subst hq <;> simp
    · rcases List.mem_map.mp h with ⟨q, _, hq⟩
      subst hq; simp
  · rcases List.mem_map.mp h with ⟨q, _, hq⟩
    subst hq; simp

theorem ends_mem_cupMesh (poly : List Point2) (cfg : PadConfig) (hne : poly ≠ []) :
    (∃ v ∈ (cupMesh poly cfg).vertices, v.z = 0) ∧
    (∃ v ∈ (cupMesh poly cfg).vertices, v.z = cfg.full_height) := by
  rcases List.exists_mem_of_ne_nil poly hne with ⟨q, hq⟩
  constructor
  · refine ⟨⟨q.x, q.y, 0⟩, ?_, rfl⟩
    unfold cupMesh
    dsimp only
    exact List.mem_append_left _ (List.mem_append_left _
      (List.mem_append_left _ (List.mem_map_of_mem _ hq)))
  · refine ⟨⟨q.x, q.y, cfg.full_height⟩, ?_, rfl⟩
    unfold cupMesh
    dsimp only
    exact List.mem_append_left _ (List.mem_append_left _
      (List.mem_append_right _ (List.mem_map_of_mem _ hq)))

theorem mem_create_pad_vertices (sup mod : List ExPolygon) (cfg : PadConfig)
    (v : Point3) :
    v ∈ (create_pad sup mod cfg).vertices ↔
      ∃ ep ∈ sup ++ mod,
        v ∈ (if cfg.wall_height_mm ≤ 0 then
              prismMesh ep.contour 0 cfg.full_height
            else cupMesh ep.contour cfg).vertices := by
  unfold create_pad
  rw [mergeMeshes_vertices, List.map_map]
  constructor
  · intro hv
    rcases List.mem_flatten.mp hv with ⟨l, hl, hvl⟩
    rcases List.mem_map.mp hl with ⟨ep, hep, hle⟩
    subst hle
    exact ⟨ep, hep, hvl⟩
  · rintro ⟨ep, hep, hv⟩
    exact List.mem_flatten.mpr ⟨_, List.mem_map_of_mem _ hep, hv⟩

/-- C1: for every footprint with at least one nonempty contour and every
admissible pad configuration (nonnegative wall height and base thickness),
the mesh produced by `create_pad` has Z extent exactly
`cfg.full_height()` — for the flat pad (`wall_height_mm = 0`) and the
walled/winged pad (`wall_height_mm > 0`) alike. -/
theorem claim_C1_pad_height (sup mod : List ExPolygon) (cfg : PadConfig)
    (hw : 0 ≤ cfg.wall_height_mm) (ht : 0 ≤ cfg.min_wall_thickness_mm)
    (hfp : ∃ ep ∈ sup ++ mod, ep.contour ≠ []) :
    meshMaxZ (create_pad sup mod cfg) - meshMinZ (create_pad sup mod cfg)
      = cfg.full_height := by
  have hfh : 0 ≤ cfg.full_height := by
    unfold PadConfig.full_height; omega
  have hbound : ∀ v ∈ (create_pad sup mod cfg).vertices,
      0 ≤ v.z ∧ v.z ≤ cfg.full_height := by
    intro v hv
    rcases (mem_create_pad_vertices sup mod cfg v).mp hv with ⟨ep, _, hvm⟩
    by_cases hwc : cfg.wall_height_mm ≤ 0
    · rw [if_pos hwc] at hvm
      rcases z_of_mem_prismMesh _ _ _ v hvm with h | h <;> rw [h] <;>
        exact ⟨by omega, by omega⟩
    · rw [if_neg hwc] at hvm
      rcases z_of_mem_cupMesh _ _ _ hvm with h | h | h <;> rw [h] <;>
        constructor <;> first | omega | (unfold PadConfig.full_height; omega)
  obtain ⟨ep, hep, hco⟩ := hfp
  have hends : (∃ v ∈ (create_pad sup mod cfg).vertices, v.z = 0) ∧
      (∃ v ∈ (create_pad sup mod cfg).vertices, v.z = cfg.full_height) := by
    by_cases hwc : cfg.wall_height_mm ≤ 0
    · obtain ⟨h0, h1⟩ := ends_mem_prismMesh ep.contour 0 cfg.full_height hco
      rcases h0 with ⟨v, hv, hz⟩
      rcases h1 with ⟨w, hw', hz'⟩
      constructor
      · exact ⟨v, (mem_create_pad_vertices sup mod cfg v).mpr
          ⟨ep, hep, by rw [if_pos hwc]; exact hv⟩, hz⟩
      · exact ⟨w, (mem_create_pad_vertices sup mod cfg w).mpr
          ⟨ep, hep, by rw [if_pos hwc]; exact hw'⟩, hz'⟩
    · obtain ⟨h0, h1⟩ := ends_mem_cupMesh ep.contour cfg hco
      rcases h0 with ⟨v, hv, hz⟩
      rcases h1 with ⟨w, hw', hz'⟩
      constructor
      · exact ⟨v, (mem_create_pad_vertices sup mod cfg v).mpr
          ⟨ep, hep, by rw [if_neg hwc]; exact hv⟩, hz⟩
      · exact ⟨w, (mem_create_pad_vertices sup mod cfg w).mpr
          ⟨ep, hep, by rw [if_neg hwc]; exact hw'⟩, hz'⟩
  obtain ⟨⟨v0, hv0, hz0⟩, ⟨v1, hv1, hz1⟩⟩ := hends
  have hmin : meshMinZ (create_pad sup mod cfg) = 0 := by
    apply listMinD_eq
    · exact List.mem_map.mpr ⟨v0, hv0, hz0⟩
    · intro y hy
      rcases List.mem_map.mp hy with ⟨v, hv, hvy⟩
      subst hvy
      exact (hbound v hv).1
  have hmax : meshMaxZ (create_pad sup mod cfg) = cfg.full_height := by
    apply listMaxD_eq
    · exact List.mem_map.mpr ⟨v1, hv1, hz1⟩
    · intro y hy
      rcases List.mem_map.mp hy with ⟨v, hv, hvy⟩
      subst hvy
      exact (hbound v hv).2
  rw [meshMinZ] at hmin
  rw [meshMaxZ] at hmax
  unfold meshMinZ meshMaxZ
  omega

theorem claim_C1_pad_height_wit :
    ((0 : ℤ) ≤ defaultPadConfig.wall_height_mm ∧
      meshMaxZ (create_pad [] [sqExPoly] defaultPadConfig)
        - meshMinZ (create_pad [] [sqExPoly] defaultPadConfig)
        = defaultPadConfig.full_height) ∧
    ((0 : ℤ) < wingedPadConfig.wall_height_mm ∧
      meshMaxZ (create_pad [] [sqExPoly] wingedPadConfig)
        - meshMinZ (create_pad [] [sqExPoly] wingedPadConfig)
        = wingedPadConfig.full_height) :=
  ⟨⟨by decide,
    claim_C1_pad_height [] [sqExPoly] defaultPadConfig (by decide) (by decide)
      ⟨sqExPoly, by decide, by decide⟩⟩,
   ⟨by decide,
    claim_C1_pad_height [] [sqExPoly] wingedPadConfig (by decide) (by decide)
      ⟨sqExPoly, by decide, by decide⟩⟩⟩

/-! ## Non-collision of supports and model -/

theorem inter2_nil_of_disjoint (S M : Region3) (z cr : ℤ)
    (hdisj : ∀ p : Point3, memR3 p S → ¬ memR3 p M) :
    inter2 (sliceAt S z cr) (sliceAt M z cr) = [] := by
  rw [List.eq_nil_iff_forall_not_mem]
  intro r hr
  rcases List.mem_flatMap.mp hr with ⟨a, ha, hfm⟩
  rcases List.mem_filterMap.mp hfm with ⟨b, hb, hri⟩
  obtain ⟨_, hma, hmb⟩ := rectInter_some a b r hri
  exact hdisj ⟨r.lo.x, r.lo.y, z⟩
    (memR3_of_mem_sliceAt S z cr a ha r.lo hma)
    (memR3_of_mem_sliceAt M z cr b hb r.lo hmb)

/-- When heads are configured to stop short of the surface, the whole
synthesized tree occupies no point of the model. -/
theorem tree_disjoint_model (pts : List SupportPoint) (solid : Region3)
    (cfg : SupportConfig) (hpen : cfg.head_penetration_mm < 0) (p : Point3)
    (hp : memR3 p (buildTree pts solid cfg).primitives) : ¬ memR3 p solid := by
  intro hpm
  have hprim : (buildTree pts solid cfg).primitives
      = regionDiff (candidatePillars pts (zminR solid - cfg.object_elevation_mm))
          (dilate solid (-cfg.head_penetration_mm)) := by
    show (if cfg.head_penetration_mm < 0 then _ else _) = _
    rw [if_pos hpen]
  rw [hprim] at hp
  have h := (memR3_regionDiff _ _ p).mp hp
  exact h.2 (memR3_dilate_of_memR3 solid _ (by omega) p hpm)

/-- C2: with `head_penetration_mm < 0`, the cross-section intersection of
the synthesized support tree and the model is empty at every layer of the
shared Z grid. -/
theorem claim_C2_no_collision (solid : Region3) (pts : List SupportPoint)
    (cfg : SupportConfig) (grid : List ℤ) (cr : ℤ) (n : ℕ)
    (hn : n < grid.length) (hpen : cfg.head_penetration_mm < 0) :
    inter2
      (((buildTree pts solid cfg).slice grid cr).get
        ⟨n, by rw [length_treeSlice]; exact hn⟩)
      ((slicerSlice solid grid cr).get
        ⟨n, by rw [length_slicerSlice]; exact hn⟩) = [] := by
  have e1 : (((buildTree pts solid cfg).slice grid cr).get
        ⟨n, by rw [length_treeSlice]; exact hn⟩)
      = sliceAt (buildTree pts solid cfg).primitives (grid.get ⟨n, hn⟩) cr := by
    simp [SLASupportTree.slice, slicerSlice, List.get_eq_getElem]
  have e2 : ((slicerSlice solid grid cr).get
        ⟨n, by rw [length_slicerSlice]; exact hn⟩)
      = sliceAt solid (grid.get ⟨n, hn⟩) cr := by
    simp [slicerSlice, List.get_eq_getElem]
  rw [e1, e2]
  exact inter2_nil_of_disjoint _ _ _ cr
    (tree_disjoint_model pts solid cfg hpen)

theorem claim_C2_no_collision_wit :
    inter2
      (((buildTree [samplePoint] cubeSolid collisionSupportConfig).slice
          [0, 10 * mmScale] testCR).get
        ⟨0, by rw [length_treeSlice]; decide⟩)
      ((slicerSlice cubeSolid [0, 10 * mmScale] testCR).get
        ⟨0, by rw [length_slicerSlice]; decide⟩) = [] :=
  claim_C2_no_collision cubeSolid [samplePoint] collisionSupportConfig
    [0, 10 * mmScale] testCR 0 (by decide) (by decide)

/-! ## Support-tree Z bounds -/

theorem zminR_le (R : Region3) (b : Box3) (hb : b ∈ R) : zminR R ≤ b.lo.z :=
  listMinD_le_mem _ _ (List.mem_map_of_mem _ hb)

theorem le_zmaxR (R : Region3) (b : Box3) (hb : b ∈ R) : b.hi.z ≤ zmaxR R :=
  mem_le_listMaxD _ _ (List.mem_map_of_mem _ hb)

theorem zminR_le_zmaxR (R : Region3) (hne : R ≠ [])
    (hval : ∀ b ∈ R, validBox b) : zminR R ≤ zmaxR R := by
  rcases List.exists_mem_of_ne_nil R hne with ⟨b, hb⟩
  have h1 := zminR_le R b hb
  have h2 := le_zmaxR R b hb
  have h3 := (hval b hb).2.2
  omega

theorem autoGo_mem (d : ℤ) (prev : Region2) (pairs : List (ℤ × Region2))
    (p : SupportPoint) (hp : p ∈ autoGo d prev pairs) :
    p.head_front_radius = d / 2 ∧
      ∃ zc ∈ pairs, p.pos.z = zc.1 ∧ ∃ r, r ∈ zc.2 := by
  induction pairs generalizing prev with
  | nil => cases hp
  | cons zc rest ih =>
      rcases zc with ⟨z, cur⟩
      rw [autoGo] at hp
      rcases List.mem_append.mp hp with h | h
      · rcases List.mem_map.mp h with ⟨r, hr, hrp⟩
        subst hrp
        refine ⟨rfl, ⟨(z, cur), List.mem_cons_self _ _, rfl, r, ?_⟩⟩
        exact List.mem_of_mem_filter hr
      · obtain ⟨h1, zc', h2, h3⟩ := ih cur h
        exact ⟨h1, zc', List.mem_cons_of_mem _ h2, h3⟩

theorem zip_self_map {α β : Type} (l : List α) (f : α → β) :
    l.zip (l.map f) = l.map (fun a => (a, f a)) := by
  induction l with
  | nil => rfl
  | cons a l ih => simp [List.zip_cons_cons, ih]

theorem rawPoints_facts (solid : Region3) (cfg : SupportConfig) (h cr : ℤ)
    (p : SupportPoint) (hp : p ∈ pipelineRawPoints solid cfg h cr) :
    p.head_front_radius = cfg.head_front_radius_mm ∧
      ∃ z ∈ pipelineGrid solid cfg h, p.pos.z = z ∧
        ∃ b ∈ solid, b.lo.z ≤ z ∧ z < b.hi.z := by
  unfold pipelineRawPoints autoSupportPoints pipelineSlices slicerSlice at hp
  rw [zip_self_map] at hp
  obtain ⟨hrad, zc, hzc, hzz, r, hr⟩ := autoGo_mem _ _ _ p hp
  rcases List.mem_map.mp hzc with ⟨z, hz, hze⟩
  subst hze
  dsimp only at hzz hr
  constructor
  · rw [hrad]
    show (2 * cfg.head_front_radius_mm) / 2 = cfg.head_front_radius_mm
    omega
  · refine ⟨z, hz, hzz, ?_⟩
    rcases exists_box_of_mem_sliceAt solid z cr r hr with ⟨b, hb, h1, h2, _⟩
    exact ⟨b, hb, h1, h2⟩

theorem pipelinePoints_sub (solid : Region3) (cfg : SupportConfig) (h cr : ℤ)
    (p : SupportPoint) (hp : p ∈ pipelinePoints solid cfg h cr) :
    p ∈ pipelineRawPoints solid cfg h cr := by
  unfold pipelinePoints at hp
  split at hp
  · exact ((mem_remove_bottom_points _ _ _ p).mp hp).1
  · exact hp

theorem pipelinePoint_facts (solid : Region3) (cfg : SupportConfig) (h cr : ℤ)
    (hne : solid ≠ []) (hval : ∀ b ∈ solid, validBox b)
    (hE : 0 < cfg.object_elevation_mm) (hh : 0 < h) (p : SupportPoint)
    (hp : p ∈ pipelinePoints solid cfg h cr) :
    zminR solid ≤ p.pos.z ∧ p.pos.z ≤ zmaxR solid ∧
      p.head_front_radius = cfg.head_front_radius_mm := by
  obtain ⟨hrad, z, hz, hzz, b, hb, h1, _⟩ :=
    rawPoints_facts solid cfg h cr p (pipelinePoints_sub solid cfg h cr p hp)
  have hminmax := zminR_le_zmaxR solid hne hval
  have hstart : zminR solid - cfg.object_elevation_mm ≤ zmaxR solid := by omega
  have hzle : z ≤ zmaxR solid :=
    mem_gridF_le _ _ h z hh hstart hz
  have hzlo : zminR solid ≤ z := le_trans (zminR_le solid b hb) h1
  exact ⟨by omega, by omega, hrad⟩

theorem mem_merged_vertices (t : SLASupportTree) (v : Point3) :
    v ∈ t.merged_mesh.vertices ↔ ∃ d ∈ t.primitives, v ∈ boxCorners d := by
  unfold SLASupportTree.merged_mesh
  rw [mergeMeshes_vertices, List.map_map]
  constructor
  · intro hv
    rcases List.mem_flatten.mp hv with ⟨l, hl, hvl⟩
    rcases List.mem_map.mp hl with ⟨d, hd, hle⟩
    subst hle
    exact ⟨d, hd, hvl⟩
  · rintro ⟨d, hd, hv⟩
    exact List.mem_flatten.mpr ⟨_, List.mem_map_of_mem _ hd, hv⟩

theorem mem_candidatePillars (pts : List SupportPoint) (gnd : ℤ) (a : Box3)
    (ha : a ∈ candidatePillars pts gnd) :
    ∃ p ∈ pts, a = ⟨⟨p.pos.x - p.head_front_radius,
        p.pos.y - p.head_front_radius, gnd⟩,
      ⟨p.pos.x + p.head_front_radius, p.pos.y + p.head_front_radius,
        p.pos.z⟩⟩ := by
  rcases List.mem_map.mp ha with ⟨p, hp, hpe⟩
  exact ⟨p, hp, hpe.symm⟩

/-- C3: the merged support mesh of the elevated pipeline reaches down to
exactly `zmin(model) − object_elevation_mm` and never above the model's
highest Z.  (Hypotheses: well-formed nonempty model solid; positive
elevation, head radius and layer step; a penetration gap smaller than the
elevation when negative; a nonempty generated point set, as asserted by the
elevated test.) -/
theorem claim_C3_support_bounds (solid : Region3) (cfg : SupportConfig)
    (h cr : ℤ) (hne : solid ≠ []) (hval : ∀ b ∈ solid, validBox b)
    (hE : 0 < cfg.object_elevation_mm) (hr : 0 < cfg.head_front_radius_mm)
    (hpen : cfg.head_penetration_mm < 0 →
      -cfg.head_penetration_mm < cfg.object_elevation_mm)
    (hh : 0 < h) (hpts : pipelinePoints solid cfg h cr ≠ []) :
    meshMinZ (pipelineTree solid cfg h cr).merged_mesh
        = zminR solid - cfg.object_elevation_mm ∧
    meshMaxZ (pipelineTree solid cfg h cr).merged_mesh ≤ zmaxR solid := by
  have hminmax := zminR_le_zmaxR solid hne hval
  set gnd := zminR solid - cfg.object_elevation_mm with hgnd
  set pts := pipelinePoints solid cfg h cr with hptsdef
  set cand := candidatePillars pts gnd with hcand
  have hfacts := fun (p : SupportPoint) (hp : p ∈ pts) =>
    pipelinePoint_facts solid cfg h cr hne hval hE hh p hp
  -- Bounds of candidate boxes
  have hcandb : ∀ a ∈ cand, a.lo.z = gnd ∧ gnd < a.hi.z ∧ a.hi.z ≤ zmaxR solid := by
    intro a ha
    rcases mem_candidatePillars pts gnd a ha with ⟨p, hp, hae⟩
    obtain ⟨hp1, hp2, _⟩ := hfacts p hp
    subst hae
    refine ⟨rfl, ?_, ?_⟩ <;> dsimp only <;> omega
  -- The primitive arena, by penetration sign
  have hsplit : (pipelineTree solid cfg h cr).primitives
        = regionDiff cand (dilate solid (-cfg.head_penetration_mm))
      ∨ (pipelineTree solid cfg h cr).primitives = cand := by
    show (if cfg.head_penetration_mm < 0 then _ else _)
        = _ ∨ (if cfg.head_penetration_mm < 0 then _ else _) = _
    by_cases hc : cfg.head_penetration_mm < 0
    · rw [if_pos hc]; exact Or.inl rfl
    · rw [if_neg hc]; exact Or.inr rfl
  -- Every primitive corner lies within [gnd, zmax]
  have hcorner : ∀ d ∈ (pipelineTree solid cfg h cr).primitives,
      gnd ≤ d.lo.z ∧ d.lo.z ≤ zmaxR solid ∧
      gnd ≤ d.hi.z ∧ d.hi.z ≤ zmaxR solid := by
    intro d hd
    rcases hsplit with hs | hs
    · rw [hs] at hd
      rcases sub_of_mem_regionDiff _ _ d hd with ⟨a, ha, hsub⟩
      obtain ⟨ha1, ha2, ha3⟩ := hcandb a ha
      obtain ⟨_, _, hz1, _, _, hz2⟩ := hsub
      rcases valid_or_mem_of_mem_regionDiff _ _ d hd with hmem | hvd
      · obtain ⟨hd1, hd2, hd3⟩ := hcandb d hmem
        omega
      · obtain ⟨_, _, hvz⟩ := hvd
        omega
    · rw [hs] at hd
      obtain ⟨hd1, hd2, hd3⟩ := hcandb d hd
      omega
  -- Some primitive reaches the ground level exactly
  obtain ⟨p0, hp0⟩ := List.exists_mem_of_ne_nil pts hpts
  obtain ⟨hp01, hp02, hp03⟩ := hfacts p0 hp0
  have hrad0 : 0 < p0.head_front_radius := by omega
  set a0 : Box3 := ⟨⟨p0.pos.x - p0.head_front_radius,
      p0.pos.y - p0.head_front_radius, gnd⟩,
    ⟨p0.pos.x + p0.head_front_radius, p0.pos.y + p0.head_front_radius,
      p0.pos.z⟩⟩ with ha0
  have ha0mem : a0 ∈ cand := by
    rw [hcand]
    exact List.mem_map_of_mem _ hp0
  set g : Point3 := ⟨p0.pos.x - p0.head_front_radius,
      p0.pos.y - p0.head_front_radius, gnd⟩ with hg
  have hga0 : memBox g a0 := by
    unfold memBox
    rw [ha0, hg]
    refine ⟨?_, ?_, ?_, ?_, ?_, ?_⟩ <;> dsimp only <;> omega
  have hground : ∃ d ∈ (pipelineTree solid cfg h cr).primitives,
      d.lo.z = gnd := by
    rcases hsplit with hs | hs
    · have hnotd : ¬ memR3 g (dilate solid (-cfg.head_penetration_mm)) := by
        intro hmem
        have hlb := z_lb_of_memR3_dilate solid (-cfg.head_penetration_mm) g
          (zminR solid) (fun b hb => zminR_le solid b hb) hmem
        have hpen' : -cfg.head_penetration_mm < cfg.object_elevation_mm := by
          by_cases hc : cfg.head_penetration_mm < 0
          · exact hpen hc
          · omega
        rw [hg] at hlb
        dsimp only at hlb
        omega
      have hmemg : memR3 g (regionDiff cand (dilate solid (-cfg.head_penetration_mm))) :=
        (memR3_regionDiff _ _ g).mpr ⟨⟨a0, ha0mem, hga0⟩, hnotd⟩
      rcases hmemg with ⟨d, hd, hmd⟩
      refine ⟨d, by rw [hs]; exact hd, ?_⟩
      have h1 : d.lo.z ≤ g.z := hmd.2.2.2.2.1
      have h2 := (hcorner d (by rw [hs]; exact hd)).1
      rw [hg] at h1
      dsimp only at h1
      omega
    · exact ⟨a0, by rw [hs]; exact ha0mem, (hcandb a0 ha0mem).1⟩
  obtain ⟨d0, hd0, hd0z⟩ := hground
  have hvmem : (⟨d0.lo.x, d0.lo.y, d0.lo.z⟩ : Point3)
      ∈ (pipelineTree solid cfg h cr).merged_mesh.vertices :=
    (mem_merged_vertices _ _).mpr ⟨d0, hd0, lo_mem_boxCorners d0⟩
  have hzbound : ∀ y ∈ (pipelineTree solid cfg h cr).merged_mesh.vertices.map
      Point3.z, gnd ≤ y ∧ y ≤ zmaxR solid := by
    intro y hy
    rcases List.mem_map.mp hy with ⟨v, hv, hvy⟩
    subst hvy
    rcases (mem_merged_vertices _ v).mp hv with ⟨d, hd, hvd⟩
    obtain ⟨h1, h2, h3, h4⟩ := hcorner d hd
    rcases z_of_mem_boxCorners d v hvd with hz | hz <;> rw [hz] <;> omega
  constructor
  · apply listMinD_eq
    · exact List.mem_map.mpr ⟨_, hvmem, hd0z⟩
    · exact fun y hy => (hzbound y hy).1
  · apply listMaxD_le
    · intro hnil
      have : (gnd : ℤ) ∈ ([] : List ℤ) := by
        rw [← hnil]
        exact List.mem_map.mpr ⟨_, hvmem, hd0z⟩
      cases this
    · exact fun y hy => (hzbound y hy).2

theorem claim_C3_support_bounds_wit :
    meshMinZ (pipelineTree cubeSolid defaultSupportConfig testLayerH testCR).merged_mesh
        = zminR cubeSolid - defaultSupportConfig.object_elevation_mm ∧
    meshMaxZ (pipelineTree cubeSolid defaultSupportConfig testLayerH testCR).merged_mesh
        ≤ zmaxR cubeSolid :=
  claim_C3_support_bounds cubeSolid defaultSupportConfig testLayerH testCR
    (by decide) (by decide) (by decide) (by decide) (by decide) (by decide)
    (by decide)

/-! ## Validity of the generated meshes on the standard test models -/

/-- C5: for the 20 mm cube and the cube-with-hole, the generated pad mesh
and the (elevated) merged support mesh each pass the full validity check of
the test suite: non-empty, structurally valid, `needed_repair() = false`
after repair, and manifold after repair with shared vertices. -/
theorem claim_C5_generated_meshes_valid :
    checkValidity cubePadMesh allFlags = true ∧
    checkValidity holePadMesh allFlags = true ∧
    checkValidity cubeSupportMesh allFlags = true ∧
    checkValidity holeSupportMesh allFlags = true := by
  refine ⟨?_, ?_, ?_, ?_⟩ <;> decide

end SlaSpec
